import Mathlib

/-!
Shallow embedding of the traffic-analysis core of
`TCS/examples/speed_estimation/ultralytics_example.py`:
the `UltimateTrafficAnalyzer` class (`record_vehicle`, `record_violation`,
`get_statistics`), the per-frame speed computation of `main`, and the
string vehicle keys built as `f"{tracker_id}_{class_name}"`.

Python floats are modelled as exact rationals, timestamps (ISO strings
parsed with `fromisoformat` and differenced in seconds) as rationals,
tracker ids as naturals, and the `violations` defaultdict as a total
function `String → List ViolationRecord` together with the list of keys
actually present in the dict (in insertion order).
-/

namespace TCS

/-- Python `int()` on a rational: truncation toward zero. -/
def pyInt (q : ℚ) : ℤ := if q < 0 then -⌊-q⌋ else ⌊q⌋

/-- Base-10 digits, little-endian, by fuel-bounded structural recursion
(so that concrete keys reduce inside the kernel). -/
def digitsFuel : ℕ → ℕ → List ℕ
  | 0, _ => []
  | f + 1, n => if n = 0 then [] else n % 10 :: digitsFuel f (n / 10)

/-- The decimal string of a natural number, as produced by a Python
f-string `f"{n}"`: most-significant digit first, `"0"` for zero. -/
def natToStr (n : ℕ) : String :=
  if n = 0 then "0" else ⟨((digitsFuel n n).reverse.map Nat.digitChar)⟩

/-- The string vehicle key `f"{tracker_id}_{class_name}"` used by both
`record_vehicle` (line 1135) and `record_violation` (line 1145). -/
def mkKey (tracker_id : ℕ) (class_name : String) : String :=
  natToStr tracker_id ++ "_" ++ class_name

/-- Module constant `SPEED_LIMIT = 100` (line 1106). -/
def SPEED_LIMIT : ℚ := 100

/-- One entry of a per-key violation list (the `violation_data` dict). -/
structure ViolationRecord where
  tracker_id : ℕ
  class_name : String
  speed_kmh : ℤ
  timestamp : ℚ
  violation_number : ℕ
  deriving DecidableEq, Repr

/-- The per-key entry of `self.vehicle_states`. -/
structure VehicleState where
  last_speed : ℚ
  last_time : ℚ
  violation_count : ℕ
  max_speed : ℚ
  deriving DecidableEq, Repr

/-- The mutable state of `UltimateTrafficAnalyzer`.  `vkeys` lists the keys
present in the `violations` defaultdict, in insertion order; `violations k`
is `[]` for a key not in the dict. -/
structure Analyzer where
  all_vehicles_seen : Finset String
  zone_vehicles_seen : Finset String
  vkeys : List String
  violations : String → List ViolationRecord
  vehicle_states : String → Option VehicleState
  unique_vehicle_classes : String → ℕ

/-- Constructor `UltimateTrafficAnalyzer.__init__`: all collections empty. -/
def initAnalyzer : Analyzer :=
  { all_vehicles_seen := ∅
    zone_vehicles_seen := ∅
    vkeys := []
    violations := fun _ => []
    vehicle_states := fun _ => none
    unique_vehicle_classes := fun _ => 0 }

/-- Pointwise update of a string-keyed map. -/
def upd {α : Type} (f : String → α) (k : String) (v : α) : String → α :=
  fun x => if x = k then v else f x

/-- Appending via `self.violations[key].append(r)` on a `defaultdict(list)`:
the key is added to the dict on first access. -/
def pushViolation (s : Analyzer) (key : String) (r : ViolationRecord) : Analyzer :=
  { s with
    violations := upd s.violations key (s.violations key ++ [r])
    vkeys := if key ∈ s.vkeys then s.vkeys else s.vkeys ++ [key] }

/-- Method `UltimateTrafficAnalyzer.record_vehicle` (lines 1132-1140). -/
def record_vehicle (s : Analyzer) (tracker_id : Option ℕ) (class_name : String)
    (in_zone : Bool) : Analyzer :=
  match tracker_id with
  | none => s
  | some tid =>
    let vehicle_key := mkKey tid class_name
    let s1 :=
      if vehicle_key ∈ s.all_vehicles_seen then s
      else
        { s with
          all_vehicles_seen := insert vehicle_key s.all_vehicles_seen
          unique_vehicle_classes :=
            upd s.unique_vehicle_classes class_name
              (s.unique_vehicle_classes class_name + 1) }
    if in_zone then
      { s1 with zone_vehicles_seen := insert vehicle_key s1.zone_vehicles_seen }
    else s1

/-- The alert string `f"ALERT! {class_name} #{tracker_id} at {int(speed_kmh)} km/h"`
dispatched to `send_sms` (lines 1177-1180). -/
def alertMsg (class_name : String) (tracker_id : ℕ) (speed_kmh : ℚ) : String :=
  "ALERT! " ++ class_name ++ " #" ++ natToStr tracker_id ++ " at " ++
    natToStr (pyInt speed_kmh).toNat ++ " km/h"

/-- Method `UltimateTrafficAnalyzer.record_violation` (lines 1142-1182).  Returns
the new state, the emitted record (the Python return value, `None` when no
record is emitted), and the alert string handed to the notifier (`None`
when no alert is raised). -/
def record_violation (s : Analyzer) (tracker_id : Option ℕ) (class_name : String)
    (speed_kmh : ℚ) (timestamp : ℚ) :
    Analyzer × Option ViolationRecord × Option String :=
  match tracker_id with
  | none => (s, none, none)
  | some tid =>
    if speed_kmh < 5 then (s, none, none)
    else
      let vehicle_key := mkKey tid class_name
      match s.vehicle_states vehicle_key with
      | none =>
        let st : VehicleState :=
          { last_speed := speed_kmh, last_time := timestamp
            violation_count := 1, max_speed := speed_kmh }
        let r : ViolationRecord :=
          { tracker_id := tid, class_name := class_name
            speed_kmh := pyInt speed_kmh, timestamp := timestamp
            violation_number := 1 }
        (pushViolation
          { s with vehicle_states := upd s.vehicle_states vehicle_key (some st) }
          vehicle_key r,
         some r, none)
      | some st =>
        let time_diff := timestamp - st.last_time
        let speed_diff := |speed_kmh - st.last_speed|
        if speed_diff > 10 ∨ time_diff > 5 then
          let st' : VehicleState :=
            { last_speed := speed_kmh, last_time := timestamp
              violation_count := st.violation_count + 1
              max_speed := max st.max_speed speed_kmh }
          let r : ViolationRecord :=
            { tracker_id := tid, class_name := class_name
              speed_kmh := pyInt speed_kmh, timestamp := timestamp
              violation_number := st.violation_count + 1 }
          let alert :=
            if speed_kmh > SPEED_LIMIT then some (alertMsg class_name tid speed_kmh)
            else none
          (pushViolation
            { s with vehicle_states := upd s.vehicle_states vehicle_key (some st') }
            vehicle_key r,
           some r, alert)
        else (s, none, none)

/-- Python `max(l)` guarded by `if l else 0`. -/
def pythonMax : List ℤ → ℤ
  | [] => 0
  | a :: t => t.foldl max a

/-- The flattened list
`[v['speed_kmh'] for violations_list in self.violations.values() for v in violations_list]`. -/
def allSpeeds (s : Analyzer) : List ℤ :=
  s.vkeys.flatMap fun k => (s.violations k).map (·.speed_kmh)

/-- The fields of the `get_statistics` dict that the core computes
(`analysis_id` and the wall-clock `processing_duration` are identifiers /
real time, not state). -/
structure Stats where
  total_vehicles_detected : ℕ
  vehicles_in_zone : ℕ
  total_unique_violations : ℕ
  vehicle_class_distribution : String → ℕ
  max_speed : ℤ
  avg_speed : ℚ
  vehicles_with_violations : ℕ

/-- Method `UltimateTrafficAnalyzer.get_statistics` (lines 1184-1201). -/
def get_statistics (s : Analyzer) : Stats :=
  let all_speeds := allSpeeds s
  { total_vehicles_detected := s.all_vehicles_seen.card
    vehicles_in_zone := s.zone_vehicles_seen.card
    total_unique_violations := (s.vkeys.map fun k => (s.violations k).length).sum
    vehicle_class_distribution := s.unique_vehicle_classes
    max_speed := pythonMax all_speeds
    avg_speed :=
      if all_speeds = [] then 0
      else ((all_speeds.map (Int.cast : ℤ → ℚ)).sum) / (all_speeds.length : ℚ)
    vehicles_with_violations := s.vkeys.length }

/-- One externally triggered mutation of the analyzer. -/
inductive Op
  | vehicle (tracker_id : Option ℕ) (class_name : String) (in_zone : Bool)
  | violation (tracker_id : Option ℕ) (class_name : String) (speed_kmh timestamp : ℚ)

/-- Apply one call to the analyzer state. -/
def step (s : Analyzer) : Op → Analyzer
  | .vehicle tid cls z => record_vehicle s tid cls z
  | .violation tid cls sp t => (record_violation s tid cls sp t).1

/-- The analyzer state after a sequence of calls on a fresh analyzer. -/
def run (ops : List Op) : Analyzer := ops.foldl step initAnalyzer

/-- Per-frame speed computation of `main` (lines 2086-2093): the history
buffer holds the rectified (integer) longitudinal coordinates, oldest
first, newest last; `fps` is `video_info.fps`. -/
def computeSpeed (fps : ℕ) (buf : List ℤ) : ℚ :=
  if (buf.length : ℚ) < (fps : ℚ) / 2 then 0
  else
    let coordinate_start := buf.getLastI
    let coordinate_end := buf.headI
    let distance := |(coordinate_start : ℚ) - (coordinate_end : ℚ)|
    let time := (buf.length : ℚ) / (fps : ℚ)
    distance / time * (36 / 10)

/-- A state in which vehicle `1_car` is tracked with
`last_speed = 80`, `last_time = 0`, one violation, `max_speed = 80`. -/
def sampleTracked : Analyzer := (record_violation initAnalyzer (some 1) "car" 80 0).1

/-! ### Helper lemmas: decimal strings and key injectivity -/

theorem digitsFuel_eq {fuel n : ℕ} (h : n ≤ fuel) : digitsFuel fuel n = Nat.digits 10 n := by
  induction fuel generalizing n with
  | zero => interval_cases n; simp [digitsFuel]
  | succ f ih =>
    rcases Nat.eq_zero_or_pos n with rfl | hn
    · simp [digitsFuel]
    · rw [digitsFuel, if_neg (Nat.pos_iff_ne_zero.mp hn), ih ?_,
        Nat.digits_def' (by norm_num) hn]
      exact Nat.le_of_lt_succ (Nat.lt_of_lt_of_le (Nat.div_lt_self hn (by norm_num)) h)

theorem digitChar_ne_underscore {d : ℕ} (h : d < 10) : Nat.digitChar d ≠ '_' := by
  interval_cases d <;> decide

theorem digitChar_inj_lt {a b : ℕ} (ha : a < 10) (hb : b < 10)
    (h : Nat.digitChar a = Nat.digitChar b) : a = b := by
  interval_cases a <;> interval_cases b <;> revert h <;> decide

theorem natToStr_no_underscore {n : ℕ} : '_' ∉ (natToStr n).data := by
  unfold natToStr
  split
  · decide
  · intro hc
    simp only [List.mem_map] at hc
    obtain ⟨d, hd, hdc⟩ := hc
    rw [digitsFuel_eq le_rfl] at hd
    exact digitChar_ne_underscore
      (Nat.digits_lt_base (by norm_num) (List.mem_reverse.mp hd)) hdc

theorem map_digitChar_inj : ∀ {l1 l2 : List ℕ}, (∀ d ∈ l1, d < 10) → (∀ d ∈ l2, d < 10) →
    l1.map Nat.digitChar = l2.map Nat.digitChar → l1 = l2
  | [], [], _, _, _ => rfl
  | [], _ :: _, _, _, h => by simp at h
  | _ :: _, [], _, _, h => by simp at h
  | a :: t1, b :: t2, h1, h2, h => by
    simp only [List.map_cons, List.cons.injEq] at h
    have hab : a = b :=
      digitChar_inj_lt (h1 a (by simp)) (h2 b (by simp)) h.1
    have := map_digitChar_inj (fun d hd => h1 d (by simp [hd]))
      (fun d hd => h2 d (by simp [hd])) h.2
    rw [hab, this]

theorem natToStr_pos_ne_zero_str {m : ℕ} (hm : 0 < m)
    (hmap : List.map Nat.digitChar (digitsFuel m m).reverse = ['0']) : False := by
  rw [digitsFuel_eq le_rfl] at hmap
  have hd : (Nat.digits 10 m).reverse = [0] :=
    map_digitChar_inj
      (fun d hd => Nat.digits_lt_base (by norm_num) (List.mem_reverse.mp hd))
      (by norm_num) hmap
  have hdig : Nat.digits 10 m = [0] := by simpa using congrArg List.reverse hd
  have h2 := Nat.ofDigits_digits 10 m
  rw [hdig] at h2
  simp [Nat.ofDigits] at h2
  omega

theorem natToStr_injective {a b : ℕ} (h : natToStr a = natToStr b) : a = b := by
  have hdata : (natToStr a).data = (natToStr b).data := by rw [h]
  unfold natToStr at hdata
  rcases Nat.eq_zero_or_pos a with rfl | ha <;> rcases Nat.eq_zero_or_pos b with rfl | hb
  · rfl
  · rw [if_pos rfl, if_neg (Nat.pos_iff_ne_zero.mp hb)] at hdata
    exact absurd hdata.symm (fun hx => natToStr_pos_ne_zero_str hb hx)
  · rw [if_neg (Nat.pos_iff_ne_zero.mp ha), if_pos rfl] at hdata
    exact absurd hdata (fun hx => natToStr_pos_ne_zero_str ha hx)
  · rw [if_neg (Nat.pos_iff_ne_zero.mp ha), if_neg (Nat.pos_iff_ne_zero.mp hb)] at hdata
    have hmap : List.map Nat.digitChar (digitsFuel a a).reverse =
        List.map Nat.digitChar (digitsFuel b b).reverse := hdata
    rw [digitsFuel_eq le_rfl, digitsFuel_eq le_rfl] at hmap
    have hrev := map_digitChar_inj
      (fun d hd => Nat.digits_lt_base (by norm_num) (List.mem_reverse.mp hd))
      (fun d hd => Nat.digits_lt_base (by norm_num) (List.mem_reverse.mp hd)) hmap
    have hdig : Nat.digits 10 a = Nat.digits 10 b := by
      simpa using congrArg List.reverse hrev
    have h2 := Nat.ofDigits_digits 10 a
    rw [hdig, Nat.ofDigits_digits] at h2
    omega

theorem append_cons_underscore_inj :
    ∀ (a1 : List Char) {b1 a2 b2 : List Char}, '_' ∉ a1 → '_' ∉ a2 →
      a1 ++ '_' :: b1 = a2 ++ '_' :: b2 → a1 = a2 ∧ b1 = b2
  | [], b1, [], b2, _, _, h => by simpa using h
  | [], b1, c :: t, b2, _, h2, h => by
    simp only [List.nil_append, List.cons_append, List.cons.injEq] at h
    rw [← h.1] at h2
    exact absurd (List.mem_cons_self _ _) h2
  | c :: t, b1, [], b2, h1, _, h => by
    simp only [List.nil_append, List.cons_append, List.cons.injEq] at h
    rw [h.1] at h1
    exact absurd (List.mem_cons_self _ _) h1
  | c :: t, b1, c' :: t', b2, h1, h2, h => by
    simp only [List.cons_append, List.cons.injEq] at h
    have ih := append_cons_underscore_inj t
      (fun hx => h1 (List.mem_cons_of_mem _ hx))
      (fun hx => h2 (List.mem_cons_of_mem _ hx)) h.2
    exact ⟨by rw [h.1, ih.1], ih.2⟩

theorem mkKey_data (t : ℕ) (c : String) :
    (mkKey t c).data = (natToStr t).data ++ '_' :: c.data := by
  simp [mkKey, String.data_append]

theorem mkKey_injective {t1 t2 : ℕ} {c1 c2 : String}
    (h : mkKey t1 c1 = mkKey t2 c2) : t1 = t2 ∧ c1 = c2 := by
  have hd : (mkKey t1 c1).data = (mkKey t2 c2).data := by rw [h]
  rw [mkKey_data, mkKey_data] at hd
  have := append_cons_underscore_inj _ natToStr_no_underscore natToStr_no_underscore hd
  exact ⟨natToStr_injective (String.ext this.1), String.ext this.2⟩

/-! ### Reachability invariant -/



theorem upd_same {α : Type} (f : String → α) (k : String) (v : α) : upd f k v k = v := by
  simp [upd]

theorem upd_ne {α : Type} (f : String → α) (k : String) (v : α) {x : String} (h : x ≠ k) :
    upd f k v x = f x := by
  simp [upd, h]

theorem range'_concat_one (n : ℕ) : List.range' 1 (n + 1) = List.range' 1 n ++ [n + 1] := by
  rw [Nat.add_comm n 1, ← List.range'_append_1 1 n 1]
  simp [List.range', Nat.add_comm]

/-- Reachability invariant of the analyzer state. -/
def Inv (s : Analyzer) : Prop :=
  s.vkeys.Nodup ∧
  (∀ k, k ∈ s.vkeys ↔ s.violations k ≠ []) ∧
  (∀ k, (s.vehicle_states k).isSome ↔ k ∈ s.vkeys) ∧
  (∀ k st, s.vehicle_states k = some st → st.violation_count = (s.violations k).length) ∧
  (∀ k, (s.violations k).map (·.violation_number) =
    List.range' 1 (s.violations k).length) ∧
  s.zone_vehicles_seen ⊆ s.all_vehicles_seen

theorem Inv_init : Inv initAnalyzer := by
  refine ⟨List.nodup_nil, ?_, ?_, ?_, ?_, ?_⟩ <;> simp [initAnalyzer]

theorem Inv_record_vehicle {s : Analyzer} (h : Inv s) (tid : Option ℕ) (cls : String)
    (z : Bool) : Inv (record_vehicle s tid cls z) := by
  obtain ⟨h1, h2, h3, h4, h5, h6⟩ := h
  cases tid with
  | none => exact ⟨h1, h2, h3, h4, h5, h6⟩
  | some t =>
    simp only [record_vehicle]
    split_ifs with hz hmem hmem
    · exact ⟨h1, h2, h3, h4, h5,
        Finset.insert_subset_iff.mpr ⟨hmem, h6⟩⟩
    · exact ⟨h1, h2, h3, h4, h5,
        Finset.insert_subset_iff.mpr ⟨Finset.mem_insert_self _ _,
          h6.trans (Finset.subset_insert _ _)⟩⟩
    · exact ⟨h1, h2, h3, h4, h5, h6⟩
    · exact ⟨h1, h2, h3, h4, h5, h6.trans (Finset.subset_insert _ _)⟩

theorem Inv_record_violation {s : Analyzer} (h : Inv s) (tid : Option ℕ) (cls : String)
    (sp t : ℚ) : Inv (record_violation s tid cls sp t).1 := by
  obtain ⟨h1, h2, h3, h4, h5, h6⟩ := h
  cases tid with
  | none => exact ⟨h1, h2, h3, h4, h5, h6⟩
  | some tr =>
    by_cases hsp : sp < 5
    · simp only [record_violation, if_pos hsp]
      exact ⟨h1, h2, h3, h4, h5, h6⟩
    · cases hst : s.vehicle_states (mkKey tr cls) with
      | none =>
        have hnotin : mkKey tr cls ∉ s.vkeys := by
          intro hx
          have := (h3 _).mpr hx
          rw [hst] at this
          simp at this
        have hemp : s.violations (mkKey tr cls) = [] := by
          by_contra hx
          exact hnotin ((h2 _).mpr hx)
        simp only [record_violation, if_neg hsp, hst]
        simp only [pushViolation, upd_same, if_neg hnotin]
        refine ⟨?_, ?_, ?_, ?_, ?_, h6⟩ <;> dsimp only
        · simp [List.nodup_append, h1, hnotin]
        · intro k
          by_cases hk : k = mkKey tr cls
          · subst hk
            simp [upd_same, hemp]
          · rw [upd_ne _ _ _ hk]
            simp only [List.mem_append, List.mem_singleton, hk, or_false]
            exact h2 k
        · intro k
          by_cases hk : k = mkKey tr cls
          · subst hk
            simp [upd_same]
          · rw [upd_ne _ _ _ hk]
            simp only [List.mem_append, List.mem_singleton, hk, or_false]
            exact h3 k
        · intro k st' hst'
          by_cases hk : k = mkKey tr cls
          · subst hk
            rw [upd_same] at hst'
            rw [upd_same, hemp]
            cases hst'
            rfl
          · rw [upd_ne _ _ _ hk] at hst'
            rw [upd_ne _ _ _ hk]
            exact h4 k st' hst'
        · intro k
          by_cases hk : k = mkKey tr cls
          · subst hk
            simp [upd_same, hemp, List.range']
          · rw [upd_ne _ _ _ hk]
            exact h5 k
      | some st =>
        have hin : mkKey tr cls ∈ s.vkeys := (h3 _).mp (by rw [hst]; rfl)
        have hlen : st.violation_count = (s.violations (mkKey tr cls)).length :=
          h4 _ st hst
        by_cases htrig : |sp - st.last_speed| > 10 ∨ t - st.last_time > 5
        · simp only [record_violation, if_neg hsp, hst, if_pos htrig]
          simp only [pushViolation, upd_same, if_pos hin]
          refine ⟨h1, ?_, ?_, ?_, ?_, h6⟩ <;> dsimp only
          · intro k
            by_cases hk : k = mkKey tr cls
            · subst hk
              simp [upd_same, hin]
            · rw [upd_ne _ _ _ hk]
              exact h2 k
          · intro k
            by_cases hk : k = mkKey tr cls
            · subst hk
              simp [upd_same, hin]
            · rw [upd_ne _ _ _ hk]
              exact h3 k
          · intro k st' hst'
            by_cases hk : k = mkKey tr cls
            · subst hk
              rw [upd_same] at hst'
              rw [upd_same]
              cases hst'
              simp [hlen]
            · rw [upd_ne _ _ _ hk] at hst'
              rw [upd_ne _ _ _ hk]
              exact h4 k st' hst'
          · intro k
            by_cases hk : k = mkKey tr cls
            · subst hk
              rw [upd_same]
              simp [h5 (mkKey tr cls), hlen, range'_concat_one]
            · rw [upd_ne _ _ _ hk]
              exact h5 k
        · simp only [record_violation, if_neg hsp, hst, if_neg htrig]
          exact ⟨h1, h2, h3, h4, h5, h6⟩

theorem Inv_step {s : Analyzer} (h : Inv s) (op : Op) : Inv (step s op) := by
  cases op with
  | vehicle tid cls z => exact Inv_record_vehicle h tid cls z
  | violation tid cls sp t => exact Inv_record_violation h tid cls sp t

theorem Inv_foldl {s : Analyzer} (h : Inv s) (ops : List Op) : Inv (ops.foldl step s) := by
  induction ops generalizing s with
  | nil => exact h
  | cons op rest ih => exact ih (Inv_step h op)

theorem Inv_run (ops : List Op) : Inv (run ops) := Inv_foldl Inv_init ops

/-! ### Claim theorems -/

/-- Claim C6: a call to `record_vehicle` or `record_violation` with a null
track id, and a call to `record_violation` with speed below 5, is silently
skipped: no state is created or mutated and no record is emitted, for any
prior state. -/
theorem C6_ignorable_input_noop (s : Analyzer) (tid : ℕ) (cls : String) (z : Bool)
    (sp t : ℚ) :
    record_vehicle s none cls z = s ∧
    record_violation s none cls sp t = (s, none, none) ∧
    (sp < 5 → record_violation s (some tid) cls sp t = (s, none, none)) := by
  refine ⟨rfl, rfl, fun hsp => ?_⟩
  simp [record_violation, if_pos hsp]

/-- Witness for C6: a null-id call at speed 80 (above the floor) and a
sub-floor call at speed 3 are both skipped. -/
theorem C6_witness :
    record_vehicle initAnalyzer none "car" false = initAnalyzer ∧
    record_violation initAnalyzer none "car" 80 0 = (initAnalyzer, none, none) ∧
    record_violation initAnalyzer (some 1) "car" 3 0 = (initAnalyzer, none, none) :=
  ⟨(C6_ignorable_input_noop initAnalyzer 1 "car" false 80 0).1,
   (C6_ignorable_input_noop initAnalyzer 1 "car" false 80 0).2.1,
   (C6_ignorable_input_noop initAnalyzer 1 "car" false 3 0).2.2 (by norm_num)⟩

/-- Claim C5: with at least `frame_rate / 2` buffered samples the computed
speed is `|newest - oldest| / (count / frame_rate) * 3.6`; with fewer it is
0; and with `frame_rate = 30` and 30 samples spanning oldest 100 to newest
250 the speed is 540 km/h. -/
theorem C5_speed_formula (fps : ℕ) (buf : List ℤ) :
    (¬ ((buf.length : ℚ) < (fps : ℚ) / 2) →
      computeSpeed fps buf =
        |(buf.getLastI : ℚ) - (buf.headI : ℚ)| / ((buf.length : ℚ) / (fps : ℚ)) * (36 / 10)) ∧
    (((buf.length : ℚ) < (fps : ℚ) / 2) → computeSpeed fps buf = 0) ∧
    computeSpeed 30 ((100 : ℤ) :: (List.replicate 28 (170 : ℤ) ++ [250])) = 540 := by
  refine ⟨fun h => by rw [computeSpeed, if_neg h], fun h => by rw [computeSpeed, if_pos h], ?_⟩
  norm_num [computeSpeed, List.getLastI, List.headI, List.replicate]

/-- Witness for C5: the two guarded parts at a concrete buffer. -/
theorem C5_witness :
    computeSpeed 30 ((100 : ℤ) :: (List.replicate 28 (170 : ℤ) ++ [250])) = 540 ∧
    computeSpeed 30 [100, 250] = 0 :=
  ⟨(C5_speed_formula 30 ((100 : ℤ) :: (List.replicate 28 (170 : ℤ) ++ [250]))).2.2,
   (C5_speed_formula 30 [100, 250]).2.1 (by norm_num)⟩

/-- Claim C9: the string key `f"{track_id}_{class_name}"` is collision-free:
two different (track id, class label) pairs always yield different keys,
including class labels that contain the underscore separator. -/
theorem C9_key_collision_free :
    (∀ (t1 t2 : ℕ) (c1 c2 : String), mkKey t1 c1 = mkKey t2 c2 → t1 = t2 ∧ c1 = c2) ∧
    (∀ (t1 t2 : ℕ) (c1 c2 : String), (t1, c1) ≠ (t2, c2) → mkKey t1 c1 ≠ mkKey t2 c2) := by
  refine ⟨fun t1 t2 c1 c2 h => mkKey_injective h, fun t1 t2 c1 c2 hne h => ?_⟩
  obtain ⟨h1, h2⟩ := mkKey_injective h
  exact hne (by rw [h1, h2])

/-- Witness for C9: a separator-containing class label and a same-track
class relabel both get distinct keys. -/
theorem C9_witness :
    mkKey 1 "2_car" ≠ mkKey 12 "car" ∧ mkKey 7 "car" ≠ mkKey 7 "truck" :=
  ⟨C9_key_collision_free.2 1 12 "2_car" "car" (by decide),
   C9_key_collision_free.2 7 7 "car" "truck" (by decide)⟩

/-- Claim C10: after any call sequence on a fresh analyzer the zone-seen
set is a subset of the all-seen set, so every statistics snapshot has
`vehicles_in_zone ≤ total_vehicles_detected`. -/
theorem C10_zone_subset (ops : List Op) :
    (run ops).zone_vehicles_seen ⊆ (run ops).all_vehicles_seen ∧
    (get_statistics (run ops)).vehicles_in_zone ≤
      (get_statistics (run ops)).total_vehicles_detected := by
  have h := Inv_run ops
  exact ⟨h.2.2.2.2.2, Finset.card_le_card h.2.2.2.2.2⟩

/-- Claim C3: for any call sequence and any key, the violation numbers of
that key's records are exactly `1, 2, 3, …` in emission order, and a first
accepted measurement for a key always emits the record numbered 1. -/
theorem C3_sequence_numbers :
    (∀ (ops : List Op) (k : String),
      ((run ops).violations k).map (fun r => r.violation_number) =
        List.range' 1 ((run ops).violations k).length) ∧
    (∀ (s : Analyzer) (tid : ℕ) (cls : String) (sp t : ℚ),
      s.vehicle_states (mkKey tid cls) = none → ¬ sp < 5 →
      ∃ r, (record_violation s (some tid) cls sp t).2.1 = some r ∧
        r.violation_number = 1 ∧
        (record_violation s (some tid) cls sp t).1.violations (mkKey tid cls) =
          s.violations (mkKey tid cls) ++ [r]) := by
  constructor
  · intro ops k
    exact (Inv_run ops).2.2.2.2.1 k
  · intro s tid cls sp t hst hsp
    simp only [record_violation, if_neg hsp, hst]
    refine ⟨_, rfl, rfl, ?_⟩
    simp only [pushViolation, upd_same]

/-- Witness for C3: two accepted measurements of one vehicle produce
records numbered 1 and 2, and a first accepted measurement is numbered 1. -/
theorem C3_witness :
    ((run [Op.violation (some 1) "car" 80 0, Op.violation (some 1) "car" 95 1]).violations
        (mkKey 1 "car")).map (fun r => r.violation_number) = [1, 2] ∧
    ∃ r, (record_violation initAnalyzer (some 1) "car" 80 0).2.1 = some r ∧
      r.violation_number = 1 := by
  constructor
  · rw [C3_sequence_numbers.1 [Op.violation (some 1) "car" 80 0, Op.violation (some 1) "car" 95 1]
      (mkKey 1 "car")]
    norm_num [run, step, record_violation, initAnalyzer, pushViolation, upd, List.range']
  · obtain ⟨r, h1, h2, _⟩ := C3_sequence_numbers.2 initAnalyzer 1 "car" 80 0 rfl (by norm_num)
    exact ⟨r, h1, h2⟩


theorem sampleTracked_states :
    sampleTracked.vehicle_states (mkKey 1 "car") =
      some ⟨80, 0, 1, 80⟩ := by
  norm_num [sampleTracked, record_violation, initAnalyzer, pushViolation, upd]

/-- Counterexample to claim C1: the very first record emitted for a key —
here with speed 150, above the limit of 100 — is dispatched with NO alert:
`record_violation` only raises the alert in its already-tracked branch. -/
theorem C1_counterexample :
    (∃ r, (record_violation initAnalyzer (some 1) "car" 150 0).2.1 = some r ∧
      r.violation_number = 1) ∧
    (150 : ℚ) > SPEED_LIMIT ∧
    (record_violation initAnalyzer (some 1) "car" 150 0).2.2 = none := by
  refine ⟨⟨_, rfl, rfl⟩, by norm_num [SPEED_LIMIT], ?_⟩
  norm_num [record_violation, initAnalyzer]

/-- Claim C1 (amended): an alert is raised and dispatched exactly when a
record is emitted for an already-tracked key (the `Tracked` state) with
speed above the limit; the first record of a key (Unseen → Tracked) never
raises an alert. -/
theorem C1_alert_on_tracked_emission (s : Analyzer) (tid : ℕ) (cls : String) (sp t : ℚ) :
    ((record_violation s (some tid) cls sp t).2.2.isSome ↔
      (¬ sp < 5 ∧ ∃ st, s.vehicle_states (mkKey tid cls) = some st ∧
        (|sp - st.last_speed| > 10 ∨ t - st.last_time > 5) ∧ sp > SPEED_LIMIT)) ∧
    (∀ st, s.vehicle_states (mkKey tid cls) = some st → ¬ sp < 5 →
      (|sp - st.last_speed| > 10 ∨ t - st.last_time > 5) → sp > SPEED_LIMIT →
      (record_violation s (some tid) cls sp t).2.2 = some (alertMsg cls tid sp) ∧
      (record_violation s (some tid) cls sp t).2.1 ≠ none) ∧
    (s.vehicle_states (mkKey tid cls) = none →
      (record_violation s (some tid) cls sp t).2.2 = none) := by
  refine ⟨?_, ?_, ?_⟩
  · by_cases hsp : sp < 5
    · simp only [record_violation, if_pos hsp, Option.isSome_none]
      constructor
      · intro h
        cases h
      · rintro ⟨h, -⟩
        exact absurd hsp h
    · cases hst : s.vehicle_states (mkKey tid cls) with
      | none =>
        simp only [record_violation, if_neg hsp, hst, Option.isSome_none]
        constructor
        · intro h
          cases h
        · rintro ⟨-, st, hst', -⟩
          cases hst'
      | some st =>
        by_cases htrig : |sp - st.last_speed| > 10 ∨ t - st.last_time > 5
        · by_cases hlim : sp > SPEED_LIMIT
          · simp only [record_violation, if_neg hsp, hst, if_pos htrig, if_pos hlim,
              Option.isSome_some, true_iff]
            exact ⟨hsp, st, rfl, htrig, hlim⟩
          · simp only [record_violation, if_neg hsp, hst, if_pos htrig, if_neg hlim,
              Option.isSome_none]
            constructor
            · intro h
              cases h
            · rintro ⟨-, st', hst', -, hlim'⟩
              cases hst'
              exact absurd hlim' hlim
        · simp only [record_violation, if_neg hsp, hst, if_neg htrig, Option.isSome_none]
          constructor
          · intro h
            cases h
          · rintro ⟨-, st', hst', htrig', -⟩
            cases hst'
            exact absurd htrig' htrig
  · intro st hst hsp htrig hlim
    simp only [record_violation, if_neg hsp, hst, if_pos htrig, if_pos hlim]
    exact ⟨trivial, by simp⟩
  · intro hnone
    by_cases hsp : sp < 5
    · simp only [record_violation, if_pos hsp]
    · simp only [record_violation, if_neg hsp, hnone]

/-- Witness for the amended C1: a tracked vehicle re-measured at 150 km/h
gets an alert dispatched. -/
theorem C1_witness :
    (record_violation sampleTracked (some 1) "car" 150 1).2.2 =
      some (alertMsg "car" 1 150) ∧
    (record_violation sampleTracked (some 1) "car" 150 1).2.1 ≠ none :=
  (C1_alert_on_tracked_emission sampleTracked 1 "car" 150 1).2.1
    ⟨80, 0, 1, 80⟩ sampleTracked_states (by norm_num)
    (by norm_num) (by norm_num [SPEED_LIMIT])

/-- Claim C2: for a tracked key and an accepted measurement, a record is
emitted iff the speed changed by more than 10 or more than 5 seconds
elapsed; on emission the state becomes the new measurement with
`max_speed = max(max_speed, speed)`; and the three debounce boundary
examples around `last_speed = 80` behave as specified. -/
theorem C2_debounce (s : Analyzer) (tid : ℕ) (cls : String) (sp t : ℚ)
    (st : VehicleState) (hst : s.vehicle_states (mkKey tid cls) = some st)
    (hsp : ¬ sp < 5) :
    ((record_violation s (some tid) cls sp t).2.1 ≠ none ↔
      (|sp - st.last_speed| > 10 ∨ t - st.last_time > 5)) ∧
    ((|sp - st.last_speed| > 10 ∨ t - st.last_time > 5) →
      (record_violation s (some tid) cls sp t).1.vehicle_states (mkKey tid cls) =
        some ⟨sp, t, st.violation_count + 1, max st.max_speed sp⟩ ∧
      ∃ r, (record_violation s (some tid) cls sp t).2.1 = some r ∧
        r.violation_number = st.violation_count + 1 ∧
        (record_violation s (some tid) cls sp t).1.violations (mkKey tid cls) =
          s.violations (mkKey tid cls) ++ [r]) ∧
    (st.last_speed = 80 →
      (record_violation s (some tid) cls 91 (st.last_time + 1)).2.1 ≠ none ∧
      (record_violation s (some tid) cls 89 (st.last_time + 1)).2.1 = none ∧
      (record_violation s (some tid) cls 82 (st.last_time + 6)).2.1 ≠ none) := by
  refine ⟨?_, ?_, ?_⟩
  · by_cases htrig : |sp - st.last_speed| > 10 ∨ t - st.last_time > 5
    · simp only [record_violation, if_neg hsp, hst, if_pos htrig]
      simp [htrig]
    · simp only [record_violation, if_neg hsp, hst, if_neg htrig]
      simp [htrig]
  · intro htrig
    simp only [record_violation, if_neg hsp, hst, if_pos htrig]
    refine ⟨?_, _, rfl, rfl, ?_⟩
    · simp [pushViolation, upd_same]
    · simp [pushViolation, upd_same]
  · intro h80
    refine ⟨?_, ?_, ?_⟩
    · have htrig : |(91 : ℚ) - st.last_speed| > 10 ∨ st.last_time + 1 - st.last_time > 5 := by
        left
        rw [h80]
        norm_num
      simp only [record_violation, hst, if_pos htrig, if_neg (by norm_num : ¬ (91 : ℚ) < 5)]
      simp
    · have htrig : ¬ (|(89 : ℚ) - st.last_speed| > 10 ∨ st.last_time + 1 - st.last_time > 5) := by
        rw [h80]
        norm_num
      simp only [record_violation, hst, if_neg htrig, if_neg (by norm_num : ¬ (89 : ℚ) < 5)]
    · have htrig : |(82 : ℚ) - st.last_speed| > 10 ∨ st.last_time + 6 - st.last_time > 5 := by
        right
        norm_num
      simp only [record_violation, hst, if_pos htrig, if_neg (by norm_num : ¬ (82 : ℚ) < 5)]
      simp

/-- Witness for C2: the debounce boundary on a concrete tracked state. -/
theorem C2_witness :
    (record_violation sampleTracked (some 1) "car" 91 1).2.1 ≠ none ∧
    (record_violation sampleTracked (some 1) "car" 89 1).2.1 = none ∧
    (record_violation sampleTracked (some 1) "car" 82 6).2.1 ≠ none := by
  have h := (C2_debounce sampleTracked 1 "car" 91 1 ⟨80, 0, 1, 80⟩
    sampleTracked_states (by norm_num)).2.2 rfl
  simpa using h


theorem record_violation_ledger_unchanged (s : Analyzer) (tid : Option ℕ)
    (cls : String) (sp t : ℚ) :
    (record_violation s tid cls sp t).1.all_vehicles_seen = s.all_vehicles_seen ∧
    (record_violation s tid cls sp t).1.zone_vehicles_seen = s.zone_vehicles_seen ∧
    (record_violation s tid cls sp t).1.unique_vehicle_classes =
      s.unique_vehicle_classes := by
  cases tid with
  | none => exact ⟨rfl, rfl, rfl⟩
  | some tr =>
    by_cases hsp : sp < 5
    · simp only [record_violation, if_pos hsp]
      refine ⟨?_, ?_, ?_⟩ <;> simp [pushViolation]
    · cases hst : s.vehicle_states (mkKey tr cls) with
      | none =>
        simp only [record_violation, if_neg hsp, hst]
        refine ⟨?_, ?_, ?_⟩ <;> simp [pushViolation]
      | some st =>
        by_cases htrig : |sp - st.last_speed| > 10 ∨ t - st.last_time > 5
        · simp only [record_violation, if_neg hsp, hst, if_pos htrig]
          refine ⟨?_, ?_, ?_⟩ <;> simp [pushViolation]
        · simp only [record_violation, if_neg hsp, hst, if_neg htrig]
          refine ⟨?_, ?_, ?_⟩ <;> simp [pushViolation]

/-- Claim C7: every `record_violation` call either fully commits — exactly
one record appended for its key and that key's state replaced in the same
call, all other keys and the ledger untouched — or is a complete no-op
returning the state unchanged. -/
theorem C7_atomic_commit_or_noop (s : Analyzer) (tid : Option ℕ) (cls : String)
    (sp t : ℚ) :
    ((record_violation s tid cls sp t).2.1 = none ∧
      (record_violation s tid cls sp t).1 = s) ∨
    (∃ tr r, tid = some tr ∧ (record_violation s tid cls sp t).2.1 = some r ∧
      (record_violation s tid cls sp t).1.violations (mkKey tr cls) =
        s.violations (mkKey tr cls) ++ [r] ∧
      (∀ k, k ≠ mkKey tr cls →
        (record_violation s tid cls sp t).1.violations k = s.violations k ∧
        (record_violation s tid cls sp t).1.vehicle_states k = s.vehicle_states k) ∧
      ((s.vehicle_states (mkKey tr cls) = none ∧
        (record_violation s tid cls sp t).1.vehicle_states (mkKey tr cls) =
          some ⟨sp, t, 1, sp⟩ ∧ r.violation_number = 1) ∨
       (∃ st0, s.vehicle_states (mkKey tr cls) = some st0 ∧
        (record_violation s tid cls sp t).1.vehicle_states (mkKey tr cls) =
          some ⟨sp, t, st0.violation_count + 1, max st0.max_speed sp⟩ ∧
        r.violation_number = st0.violation_count + 1)) ∧
      (record_violation s tid cls sp t).1.all_vehicles_seen = s.all_vehicles_seen ∧
      (record_violation s tid cls sp t).1.zone_vehicles_seen = s.zone_vehicles_seen ∧
      (record_violation s tid cls sp t).1.unique_vehicle_classes =
        s.unique_vehicle_classes) := by
  cases tid with
  | none => exact Or.inl ⟨rfl, rfl⟩
  | some tr =>
    by_cases hsp : sp < 5
    · left
      simp only [record_violation, if_pos hsp]
      exact ⟨trivial, trivial⟩
    · cases hst : s.vehicle_states (mkKey tr cls) with
      | none =>
        right
        simp only [record_violation, if_neg hsp, hst]
        refine ⟨tr, _, rfl, rfl, ?_, ?_, Or.inl ⟨hst, ?_, rfl⟩, rfl, rfl, rfl⟩
        · simp [pushViolation, upd_same]
        · intro k hk
          simp [pushViolation, upd_ne _ _ _ hk]
        · simp [pushViolation, upd_same]
      | some st =>
        by_cases htrig : |sp - st.last_speed| > 10 ∨ t - st.last_time > 5
        · right
          simp only [record_violation, if_neg hsp, hst, if_pos htrig]
          refine ⟨tr, _, rfl, rfl, ?_, ?_, Or.inr ⟨st, hst, ?_, rfl⟩, rfl, rfl, rfl⟩
          · simp [pushViolation, upd_same]
          · intro k hk
            simp [pushViolation, upd_ne _ _ _ hk]
          · simp [pushViolation, upd_same]
        · left
          simp only [record_violation, if_neg hsp, hst, if_neg htrig]
          exact ⟨trivial, trivial⟩

/-- The per-key effect of a run of sightings of one vehicle on the ledger:
once the key is in the all-seen set, further sightings leave the all-seen
set and the class counters unchanged. -/
theorem foldl_record_vehicle_seen (tid : ℕ) (cls : String) :
    ∀ (zs : List Bool) (s : Analyzer), mkKey tid cls ∈ s.all_vehicles_seen →
      (zs.foldl (fun a z => record_vehicle a (some tid) cls z) s).all_vehicles_seen =
        s.all_vehicles_seen ∧
      (zs.foldl (fun a z => record_vehicle a (some tid) cls z) s).unique_vehicle_classes =
        s.unique_vehicle_classes
  | [], s, _ => ⟨rfl, rfl⟩
  | z :: rest, s, hmem => by
    have hstep : (record_vehicle s (some tid) cls z).all_vehicles_seen =
        s.all_vehicles_seen ∧
        (record_vehicle s (some tid) cls z).unique_vehicle_classes =
          s.unique_vehicle_classes := by
      simp only [record_vehicle, if_pos hmem]
      cases z <;> simp
    have hmem' : mkKey tid cls ∈ (record_vehicle s (some tid) cls z).all_vehicles_seen := by
      rw [hstep.1]
      exact hmem
    have ih := foldl_record_vehicle_seen tid cls rest _ hmem'
    rw [List.foldl_cons]
    exact ⟨ih.1.trans hstep.1, ih.2.trans hstep.2⟩

/-- Claim C4: for any run of sightings of one vehicle key starting from a
state that has not seen it, the all-seen set gains exactly that one entry
and its class counter is incremented exactly once; zone insertion is
idempotent; and no operation shrinks either set or any class counter. -/
theorem C4_ledger_dedup :
    (∀ (s : Analyzer) (tid : ℕ) (cls : String) (zs : List Bool), zs ≠ [] →
      mkKey tid cls ∉ s.all_vehicles_seen →
      (zs.foldl (fun a z => record_vehicle a (some tid) cls z) s).all_vehicles_seen =
        insert (mkKey tid cls) s.all_vehicles_seen ∧
      (zs.foldl (fun a z => record_vehicle a (some tid) cls z) s).all_vehicles_seen.card =
        s.all_vehicles_seen.card + 1 ∧
      (zs.foldl (fun a z => record_vehicle a (some tid) cls z) s).unique_vehicle_classes cls =
        s.unique_vehicle_classes cls + 1) ∧
    (∀ (s : Analyzer) (tid : ℕ) (cls : String),
      mkKey tid cls ∈ s.zone_vehicles_seen →
      (record_vehicle s (some tid) cls true).zone_vehicles_seen =
        s.zone_vehicles_seen) ∧
    (∀ (s : Analyzer) (op : Op),
      s.all_vehicles_seen ⊆ (step s op).all_vehicles_seen ∧
      s.zone_vehicles_seen ⊆ (step s op).zone_vehicles_seen ∧
      ∀ c, s.unique_vehicle_classes c ≤ (step s op).unique_vehicle_classes c) := by
  refine ⟨?_, ?_, ?_⟩
  · rintro s tid cls (_ | ⟨z, rest⟩) hne hnew
    · exact absurd rfl hne
    · rw [List.foldl_cons]
      have hfirst : (record_vehicle s (some tid) cls z).all_vehicles_seen =
          insert (mkKey tid cls) s.all_vehicles_seen ∧
          (record_vehicle s (some tid) cls z).unique_vehicle_classes cls =
            s.unique_vehicle_classes cls + 1 := by
        simp only [record_vehicle, if_neg hnew]
        cases z <;> simp [upd_same]
      have hmem : mkKey tid cls ∈ (record_vehicle s (some tid) cls z).all_vehicles_seen := by
        rw [hfirst.1]
        exact Finset.mem_insert_self _ _
      have hrest := foldl_record_vehicle_seen tid cls rest _ hmem
      refine ⟨hrest.1.trans hfirst.1, ?_, ?_⟩
      · rw [hrest.1.trans hfirst.1]
        exact Finset.card_insert_of_not_mem hnew
      · rw [hrest.2]
        exact hfirst.2
  · intro s tid cls hz
    have hzz := Finset.insert_eq_self.mpr hz
    by_cases hmem : mkKey tid cls ∈ s.all_vehicles_seen
    · simp [record_vehicle, if_pos hmem, hzz]
    · simp [record_vehicle, if_neg hmem, hzz]
  · intro s op
    cases op with
    | vehicle tid cls z =>
      cases tid with
      | none => exact ⟨Finset.Subset.refl _, Finset.Subset.refl _, fun c => le_rfl⟩
      | some tr =>
        simp only [step, record_vehicle]
        split_ifs with hz hmem hmem
        · exact ⟨Finset.Subset.refl _, Finset.subset_insert _ _, fun c => le_rfl⟩
        · refine ⟨Finset.subset_insert _ _, Finset.subset_insert _ _, fun c => ?_⟩
          dsimp only
          by_cases hc : c = cls
          · subst hc
            rw [upd_same]
            exact Nat.le_succ _
          · rw [upd_ne _ _ _ hc]
        · exact ⟨Finset.Subset.refl _, Finset.Subset.refl _, fun c => le_rfl⟩
        · refine ⟨Finset.subset_insert _ _, Finset.Subset.refl _, fun c => ?_⟩
          dsimp only
          by_cases hc : c = cls
          · subst hc
            rw [upd_same]
            exact Nat.le_succ _
          · rw [upd_ne _ _ _ hc]
    | violation tid cls sp t =>
      have h := record_violation_ledger_unchanged s tid cls sp t
      simp only [step]
      rw [h.1, h.2.1, h.2.2]
      exact ⟨Finset.Subset.refl _, Finset.Subset.refl _, fun c => le_rfl⟩


theorem le_foldl_max : ∀ (l : List ℤ) (a : ℤ),
    a ≤ l.foldl max a ∧ ∀ x ∈ l, x ≤ l.foldl max a
  | [], a => ⟨le_rfl, by simp⟩
  | b :: t, a => by
    have ih := le_foldl_max t (max a b)
    refine ⟨le_trans (le_max_left a b) ih.1, ?_⟩
    intro x hx
    rcases List.mem_cons.mp hx with rfl | hx
    · exact le_trans (le_max_right a x) ih.1
    · exact ih.2 x hx

theorem foldl_max_mem : ∀ (l : List ℤ) (a : ℤ), l.foldl max a = a ∨ l.foldl max a ∈ l
  | [], _ => Or.inl rfl
  | b :: t, a => by
    rcases foldl_max_mem t (max a b) with h | h
    · rcases max_choice a b with hm | hm
      · left
        rw [List.foldl_cons, h, hm]
      · right
        rw [List.foldl_cons, h, hm]
        exact List.mem_cons_self _ _
    · right
      exact List.mem_cons_of_mem _ h

theorem pythonMax_spec {l : List ℤ} (h : l ≠ []) :
    pythonMax l ∈ l ∧ ∀ x ∈ l, x ≤ pythonMax l := by
  cases l with
  | nil => exact absurd rfl h
  | cons a t =>
    constructor
    · rcases foldl_max_mem t a with h2 | h2
      · rw [pythonMax, h2]
        exact List.mem_cons_self _ _
      · rw [pythonMax]
        exact List.mem_cons_of_mem _ h2
    · intro x hx
      rcases List.mem_cons.mp hx with rfl | hx
      · exact (le_foldl_max t x).1
      · exact (le_foldl_max t a).2 x hx

theorem length_flatMap_map {α β : Type} (l : List α) (f : α → List β) :
    (l.flatMap f).length = (l.map fun a => (f a).length).sum := by
  induction l with
  | nil => rfl
  | cons a t ih => simp [ih]

/-- Claim C8: `get_statistics` computes `max_speed`/`avg_speed` over the
flattened list of recorded violation speeds (0 when there are none),
`avg_speed * count = sum of speeds`, the total violation count is the sum
of the per-key list lengths, and `vehicles_with_violations` is the number
of distinct keys with a non-empty violation list. -/
theorem C8_statistics (ops : List Op) :
    (allSpeeds (run ops) = [] →
      (get_statistics (run ops)).max_speed = 0 ∧
      (get_statistics (run ops)).avg_speed = 0) ∧
    (get_statistics (run ops)).avg_speed * ((allSpeeds (run ops)).length : ℚ) =
      ((allSpeeds (run ops)).map (Int.cast : ℤ → ℚ)).sum ∧
    (get_statistics (run ops)).total_unique_violations = (allSpeeds (run ops)).length ∧
    (allSpeeds (run ops) ≠ [] →
      (get_statistics (run ops)).max_speed ∈ allSpeeds (run ops) ∧
      ∀ x ∈ allSpeeds (run ops), x ≤ (get_statistics (run ops)).max_speed) ∧
    (run ops).vkeys.Nodup ∧
    (∀ k, k ∈ (run ops).vkeys ↔ (run ops).violations k ≠ []) ∧
    (get_statistics (run ops)).vehicles_with_violations = (run ops).vkeys.length := by
  have hinv := Inv_run ops
  refine ⟨?_, ?_, ?_, ?_, hinv.1, hinv.2.1, rfl⟩
  · intro hemp
    constructor
    · show pythonMax (allSpeeds (run ops)) = 0
      rw [hemp]
      rfl
    · show (if allSpeeds (run ops) = [] then (0 : ℚ)
        else ((allSpeeds (run ops)).map (Int.cast : ℤ → ℚ)).sum /
          ((allSpeeds (run ops)).length : ℚ)) = 0
      rw [if_pos hemp]
  · by_cases hemp : allSpeeds (run ops) = []
    · show (if allSpeeds (run ops) = [] then (0 : ℚ) else _) * _ = _
      rw [if_pos hemp, hemp]
      simp
    · show (if allSpeeds (run ops) = [] then (0 : ℚ)
        else ((allSpeeds (run ops)).map (Int.cast : ℤ → ℚ)).sum /
          ((allSpeeds (run ops)).length : ℚ)) * _ = _
      rw [if_neg hemp]
      have hlen0 : (allSpeeds (run ops)).length ≠ 0 := by
        simpa [List.length_eq_zero] using hemp
      have hlen : ((allSpeeds (run ops)).length : ℚ) ≠ 0 := Nat.cast_ne_zero.mpr hlen0
      field_simp
  · show ((run ops).vkeys.map fun k => ((run ops).violations k).length).sum = _
    rw [allSpeeds, length_flatMap_map]
    simp
  · intro hne
    exact pythonMax_spec hne

/-- Witness for C8: the empty run has zero max and average speed, and a
two-violation run has the stated max, average relation and counts. -/
theorem C8_witness :
    ((get_statistics (run [])).max_speed = 0 ∧ (get_statistics (run [])).avg_speed = 0) ∧
    (get_statistics (run [Op.violation (some 1) "car" 80 0,
        Op.violation (some 1) "car" 95 1])).max_speed ∈
      allSpeeds (run [Op.violation (some 1) "car" 80 0,
        Op.violation (some 1) "car" 95 1]) := by
  constructor
  · exact (C8_statistics []).1 rfl
  · refine ((C8_statistics [Op.violation (some 1) "car" 80 0,
      Op.violation (some 1) "car" 95 1]).2.2.2.1 ?_).1
    norm_num [run, step, record_violation, initAnalyzer, pushViolation, upd, allSpeeds]
    exact List.cons_ne_nil _ _

/-- Witness for C7: a call with a null track id fully no-ops. -/
theorem C7_witness :
    (record_violation initAnalyzer none "car" 80 0).2.1 = none ∧
    (record_violation initAnalyzer none "car" 80 0).1 = initAnalyzer := by
  rcases C7_atomic_commit_or_noop initAnalyzer none "car" 80 0 with h | ⟨tr, r, htid, -⟩
  · exact h
  · cases htid

/-- Witness for C4: three sightings of one vehicle count its class once,
and a repeated zone sighting leaves the zone-seen set unchanged. -/
theorem C4_witness :
    ([false, true, true].foldl (fun a z => record_vehicle a (some 1) "car" z)
      initAnalyzer).unique_vehicle_classes "car" = 1 ∧
    (record_vehicle (record_vehicle initAnalyzer (some 1) "car" true)
        (some 1) "car" true).zone_vehicles_seen =
      (record_vehicle initAnalyzer (some 1) "car" true).zone_vehicles_seen := by
  constructor
  · have h := C4_ledger_dedup.1 initAnalyzer 1 "car" [false, true, true]
      (by simp) (by simp [initAnalyzer])
    rw [h.2.2]
    rfl
  · exact C4_ledger_dedup.2.1 _ 1 "car" (by simp [record_vehicle, initAnalyzer])

/-- Witness for C10: a concrete run satisfying the zone-subset bound. -/
theorem C10_witness :
    (run [Op.vehicle (some 1) "car" true]).zone_vehicles_seen ⊆
      (run [Op.vehicle (some 1) "car" true]).all_vehicles_seen ∧
    (get_statistics (run [Op.vehicle (some 1) "car" true])).vehicles_in_zone ≤
      (get_statistics (run [Op.vehicle (some 1) "car" true])).total_vehicles_detected :=
  C10_zone_subset [Op.vehicle (some 1) "car" true]

end TCS
